import Mathlib

/-!
Shallow embedding of the JSON scanner / recursive-descent parser in
`src/parser.py`, together with theorems checking the natural-language
specification against it.

Modelling conventions:
- The character cursor of `Scanner` and the token cursor of `Parser` are
  represented by the not-yet-consumed suffix of the input (the Python code
  keeps an integer index into an immutable sequence; the suffix starting at
  that index is the same data).
- Python's `ValueError` raised during scanning is `LexErr`; a `ValueError`
  raised during parsing is `PErr`; an `IndexError` from reading past the end
  of the token list is `PErr.indexOOB`.  `Except.error` models a raised
  exception, so an error result carries no partial output.
- Python `int` is `Int`.  Python `float` values produced by `float(text)`
  are modelled as exact decimal rationals (`Rat`): every numeric text the
  scanner can capture denotes a decimal fraction, and none of the claims
  depend on IEEE-754 rounding, only on which variant (int vs float) is
  produced and on the captured text.
- The mutually recursive parser procedures take a fuel argument to make the
  recursion structural; the entry point supplies `tokens.length + 1` fuel,
  which is never exhausted on any run that could succeed, since every fuel
  decrement consumes at least one distinct token.
- `Char.isDigit` / `Char.isAlpha` model Python's `str.isdigit` /
  `str.isalpha` (they agree on all ASCII input, which is all the claims use).
-/

/-- Python numbers flowing through the parser: `int(text)` results or
`float(text)` results (the latter modelled as exact decimal rationals). -/
inductive PyNum where
  | int (i : Int)
  | float (q : Rat)
deriving DecidableEq

/-- Tokens of `src/parser.py`.  The Python `Token` is a (type, value) pair
with the type drawn from the string constants of `TokenType`; here the
constructor is the type and the payload is the value (punctuation and EOF
carry no semantic value beyond their kind). -/
inductive Token where
  | str (s : List Char)
  | num (n : PyNum)
  | bool (b : Bool)
  | null
  | lbrace
  | rbrace
  | lbrack
  | rbrack
  | comma
  | colon
  | eof
deriving DecidableEq

/-- JSON values produced by the parser (`JsonValue` in `src/parser.py`):
Python dicts are association lists in insertion order, Python lists are
lists, and numbers are `PyNum`. -/
inductive JsonValue where
  | null
  | bool (b : Bool)
  | num (n : PyNum)
  | str (s : List Char)
  | arr (elems : List JsonValue)
  | obj (entries : List (List Char × JsonValue))

instance : Inhabited JsonValue := ⟨JsonValue.null⟩

/-- Errors raised inside `Scanner` (`ValueError` in the Python code).
`badNumber` is the `ValueError` that `int(text)` / `float(text)` raise on a
malformed numeric text inside `scan_number`.  `outOfFuel` is an artifact of
the fuel-based embedding and is unreachable at the fuel the driver supplies. -/
inductive LexErr where
  | unexpectedChar (c : Char)
  | unterminatedString
  | unexpectedKeyword (w : List Char)
  | badNumber (t : List Char)
  | outOfFuel
deriving DecidableEq

/-- Errors raised inside `Parser` (`ValueError`), plus `indexOOB` for the
`IndexError` Python would raise on reading `self.tokens[self.current]` past
the end, and the fuel artifact `outOfFuel`. -/
inductive PErr where
  | unexpectedToken
  | expectedStringKey
  | expectedColon
  | expectedRBrace
  | expectedRBrack
  | indexOOB
  | outOfFuel
deriving DecidableEq

/-- Error of the whole `parse_json` call: either phase's error, tagged by
the phase that raised it (the spec's `LexError` vs `ParseError`). -/
inductive Err where
  | lex (e : LexErr)
  | parse (e : PErr)
deriving DecidableEq

/-- Numeric value of a digit string, most significant digit first
(the value `int` computes on an all-digit string). -/
def digitsVal (cs : List Char) : Nat :=
  cs.foldl (fun n c => 10 * n + (c.toNat - '0'.toNat)) 0

/-- Value of Python `int(text)` on the digit texts reachable from
`scan_number`: an optional leading minus sign followed by at least one
digit; anything else raises `ValueError` (`none`). -/
def pyInt (cs : List Char) : Option Int :=
  match cs with
  | '-' :: rest =>
      if rest ≠ [] ∧ rest.all (fun c => c.isDigit) then
        some (-(digitsVal rest : Int))
      else none
  | _ =>
      if cs ≠ [] ∧ cs.all (fun c => c.isDigit) then
        some ((digitsVal cs : Int))
      else none

/-- Value of Python `float(text)` on an unsigned numeric text: either all
digits, or digits on both sides of a single decimal point with at least one
digit present; anything else (a second dot, no digits at all) raises
`ValueError` (`none`). -/
def pyFloatMag (cs : List Char) : Option Rat :=
  let ip := cs.takeWhile (fun c => c ≠ '.')
  match cs.dropWhile (fun c => c ≠ '.') with
  | [] => if cs ≠ [] ∧ cs.all (fun c => c.isDigit) then some ((digitsVal cs : Rat)) else none
  | _ :: fp =>
      if ip.all (fun c => c.isDigit) ∧ fp.all (fun c => c.isDigit) ∧ (ip ≠ [] ∨ fp ≠ []) then
        some ((digitsVal ip : Rat) + (digitsVal fp : Rat) / (10 : Rat) ^ fp.length)
      else none

/-- Value of Python `float(text)` on the numeric texts reachable from
`scan_number` (optional leading minus, then digits and dots). -/
def pyFloat (cs : List Char) : Option Rat :=
  match cs with
  | '-' :: rest => (pyFloatMag rest).map (fun q => -q)
  | _ => pyFloatMag cs

/-- `Scanner.scan_string`: invoked with the cursor just past the opening
quote; consumes characters verbatim until the next `'"'` (which it also
consumes), returning the consumed content and the remaining input, or
raises `Unterminated string` if the input ends first. -/
def scan_string : List Char → Except LexErr (List Char × List Char)
  | [] => .error .unterminatedString
  | c :: cs =>
      if c = '"' then .ok ([], cs)
      else
        match scan_string cs with
        | .ok (s, r) => .ok (c :: s, r)
        | .error e => .error e

/-- Condition of the `while` loop in `Scanner.scan_number`. -/
def isNumChar (c : Char) : Bool := c.isDigit || c = '.'

/-- Text captured by `Scanner.scan_number` starting from `first`. -/
def numText (first : Char) (cs : List Char) : List Char :=
  first :: cs.takeWhile isNumChar

/-- `Scanner.scan_number`: `first` is the already-consumed leading digit or
minus sign; consumes the following digits and dots, then converts the
captured text with `float` if it contains a dot and `int` otherwise. -/
def scan_number (first : Char) (cs : List Char) : Except LexErr (Token × List Char) :=
  let number := numText first cs
  let rest := cs.dropWhile isNumChar
  if '.' ∈ number then
    match pyFloat number with
    | some q => .ok (.num (.float q), rest)
    | none => .error (.badNumber number)
  else
    match pyInt number with
    | some i => .ok (.num (.int i), rest)
    | none => .error (.badNumber number)

/-- `Scanner.scan_keyword`: `first` is the already-consumed alphabetic
character; consumes the following alphabetic characters and recognizes
exactly `true`, `false`, `null`. -/
def scan_keyword (first : Char) (cs : List Char) : Except LexErr (Token × List Char) :=
  let word := first :: cs.takeWhile (fun c => c.isAlpha)
  let rest := cs.dropWhile (fun c => c.isAlpha)
  if word = "true".data then .ok (.bool true, rest)
  else if word = "false".data then .ok (.bool false, rest)
  else if word = "null".data then .ok (.null, rest)
  else .error (.unexpectedKeyword word)

/-- `Scanner.scan_tokens` with fuel: one unit of fuel per loop iteration of
the Python `while not self.is_at_end()` loop; every iteration consumes at
least one character, so `length + 1` fuel always suffices. -/
def scan_tokensF : Nat → List Char → Except LexErr (List Token)
  | 0, _ => .error .outOfFuel
  | _ + 1, [] => .ok [Token.eof]
  | fuel + 1, c :: rest =>
      if c = ' ' ∨ c = '\t' ∨ c = '\n' ∨ c = '\r' then
        scan_tokensF fuel rest
      else if c = '{' then (scan_tokensF fuel rest).map (fun ts => Token.lbrace :: ts)
      else if c = '}' then (scan_tokensF fuel rest).map (fun ts => Token.rbrace :: ts)
      else if c = '[' then (scan_tokensF fuel rest).map (fun ts => Token.lbrack :: ts)
      else if c = ']' then (scan_tokensF fuel rest).map (fun ts => Token.rbrack :: ts)
      else if c = ',' then (scan_tokensF fuel rest).map (fun ts => Token.comma :: ts)
      else if c = ':' then (scan_tokensF fuel rest).map (fun ts => Token.colon :: ts)
      else if c = '"' then
        match scan_string rest with
        | .error e => .error e
        | .ok (s, r) => (scan_tokensF fuel r).map (fun ts => Token.str s :: ts)
      else if c.isDigit ∨ c = '-' then
        match scan_number c rest with
        | .error e => .error e
        | .ok (t, r) => (scan_tokensF fuel r).map (fun ts => t :: ts)
      else if c.isAlpha then
        match scan_keyword c rest with
        | .error e => .error e
        | .ok (t, r) => (scan_tokensF fuel r).map (fun ts => t :: ts)
      else .error (.unexpectedChar c)

/-- `Scanner.scan_tokens` on a whole input. -/
def scan_tokens (s : List Char) : Except LexErr (List Token) :=
  scan_tokensF (s.length + 1) s

/-- Assignment `obj[key] = v` on a Python dict modelled as an association
list: overwriting an existing key keeps its position, a new key is appended
(insertion order preserved, last write wins). -/
def dictInsert (kvs : List (List Char × JsonValue)) (k : List Char) (v : JsonValue) :
    List (List Char × JsonValue) :=
  match kvs with
  | [] => [(k, v)]
  | (k', v') :: rest => if k' = k then (k', v) :: rest else (k', v') :: dictInsert rest k v

mutual

/-- `Parser.parse_value` (fueled): consume one token and dispatch on its
kind; literals are returned directly, `{` and `[` delegate to the object
and array loops, anything else raises `Unexpected token`. -/
def parse_value : Nat → List Token → Except PErr (JsonValue × List Token)
  | 0, _ => .error .outOfFuel
  | _ + 1, [] => .error .indexOOB
  | _ + 1, Token.str s :: rest => .ok (.str s, rest)
  | _ + 1, Token.num n :: rest => .ok (.num n, rest)
  | _ + 1, Token.bool b :: rest => .ok (.bool b, rest)
  | _ + 1, Token.null :: rest => .ok (.null, rest)
  | fuel + 1, Token.lbrace :: rest => parse_object_loop fuel [] rest
  | fuel + 1, Token.lbrack :: rest => parse_array_loop fuel [] rest
  | _ + 1, _ :: _ => .error .unexpectedToken

/-- The `while self.peek().type != RIGHT_BRACE` loop of
`Parser.parse_object`, together with the `expect(RIGHT_BRACE)` both of its
exits fall through to; `obj` is the accumulated dict. -/
def parse_object_loop : Nat → List (List Char × JsonValue) → List Token →
    Except PErr (JsonValue × List Token)
  | 0, _, _ => .error .outOfFuel
  | _ + 1, _, [] => .error .indexOOB
  | _ + 1, obj, Token.rbrace :: rest => .ok (.obj obj, rest)
  | fuel + 1, obj, Token.str key :: ts1 =>
      match ts1 with
      | [] => .error .indexOOB
      | Token.colon :: ts2 =>
          match parse_value fuel ts2 with
          | .error e => .error e
          | .ok (v, ts3) =>
              match ts3 with
              | [] => .error .indexOOB
              | Token.comma :: ts4 => parse_object_loop fuel (dictInsert obj key v) ts4
              | Token.rbrace :: ts4 => .ok (.obj (dictInsert obj key v), ts4)
              | _ :: _ => .error .expectedRBrace
      | _ :: _ => .error .expectedColon
  | _ + 1, _, _ :: _ => .error .expectedStringKey

/-- The `while self.peek().type != RIGHT_BRACKET` loop of
`Parser.parse_array`, together with the `expect(RIGHT_BRACKET)` both of its
exits fall through to; `acc` is the accumulated list. -/
def parse_array_loop : Nat → List JsonValue → List Token →
    Except PErr (JsonValue × List Token)
  | 0, _, _ => .error .outOfFuel
  | _ + 1, _, [] => .error .indexOOB
  | _ + 1, acc, Token.rbrack :: rest => .ok (.arr acc, rest)
  | fuel + 1, acc, ts =>
      match parse_value fuel ts with
      | .error e => .error e
      | .ok (v, ts1) =>
          match ts1 with
          | [] => .error .indexOOB
          | Token.comma :: ts2 => parse_array_loop fuel (acc ++ [v]) ts2
          | Token.rbrack :: ts2 => .ok (.arr (acc ++ [v]), ts2)
          | _ :: _ => .error .expectedRBrack

end

/-- `Parser.parse` run on a token list: a single top-level `parse_value`
whose result is returned with the remaining tokens discarded and unchecked. -/
def parse_tokens (ts : List Token) : Except PErr JsonValue :=
  (parse_value (ts.length + 1) ts).map Prod.fst

/-- `parse_json`: scan, then parse, surfacing either phase's error
unchanged. -/
def parse_json (s : String) : Except Err JsonValue :=
  match scan_tokens s.data with
  | .error e => .error (.lex e)
  | .ok tokens =>
      match parse_tokens tokens with
      | .error e => .error (.parse e)
      | .ok v => .ok v

/-- Reading `obj[key]` from a Python dict modelled as an association list:
the value at the first (unique) occurrence of the key. -/
def dictGet (kvs : List (List Char × JsonValue)) (k : List Char) : Option JsonValue :=
  match kvs with
  | [] => none
  | (k', v') :: rest => if k' = k then some v' else dictGet rest k

/-- The token list is a nonempty sequence ending in a single end-of-input
token: the shape invariant of every successful scanner output. -/
def EofTail (ts : List Token) : Prop :=
  ∃ pre, ts = pre ++ [Token.eof] ∧ Token.eof ∉ pre

/-! ## General lemmas about the scanner -/

theorem except_map_ok {α β ε : Type} {f : α → β} {e : Except ε α} {b : β} :
    e.map f = .ok b ↔ ∃ a, e = .ok a ∧ f a = b := by
  cases e <;> simp [Except.map]

theorem scan_string_cons_quote (cs : List Char) : scan_string ('"' :: cs) = .ok ([], cs) := rfl

theorem scan_string_cons_ne {c : Char} (cs : List Char) (hc : c ≠ '"') :
    scan_string (c :: cs) =
      match scan_string cs with
      | .ok (s, r) => .ok (c :: s, r)
      | .error e => .error e := by
  simp [scan_string, hc]

/-- Soundness half of the `scan_string` characterization: a successful scan
decomposes the input as content, closing quote, remainder, with no quote in
the content. -/
theorem scan_string_ok_decomp {cs s r} (h : scan_string cs = .ok (s, r)) :
    cs = s ++ '"' :: r ∧ '"' ∉ s := by
  induction cs generalizing s with
  | nil => simp [scan_string] at h
  | cons c cs ih =>
    by_cases hc : c = '"'
    · subst hc
      rw [scan_string_cons_quote] at h
      simp only [Except.ok.injEq, Prod.mk.injEq] at h
      simp [← h.1, ← h.2]
    · rw [scan_string_cons_ne cs hc] at h
      rcases he : scan_string cs with e | ⟨s', r'⟩ <;> rw [he] at h
      · simp at h
      · simp only [Except.ok.injEq, Prod.mk.injEq] at h
        obtain ⟨h1, h2⟩ := h
        subst h2
        obtain ⟨hd, hnotin⟩ := ih he
        constructor
        · rw [← h1, hd]; rfl
        · rw [← h1]
          simp only [List.mem_cons, not_or]
          exact ⟨fun hq => hc hq.symm, hnotin⟩

/-- Completeness half: the scan succeeds on exactly that decomposition. -/
theorem scan_string_ok_of_decomp {s r : List Char} (hs : '"' ∉ s) :
    scan_string (s ++ '"' :: r) = .ok (s, r) := by
  induction s with
  | nil => simp [scan_string]
  | cons c s ih =>
    have hc : c ≠ '"' := fun h => hs (h ▸ List.mem_cons_self c s)
    have hs' : '"' ∉ s := fun h => hs (List.mem_cons_of_mem c h)
    rw [List.cons_append, scan_string_cons_ne _ hc, ih hs']

/-- If the remaining input holds no double quote at all, `scan_string`
reaches the end and raises `Unterminated string`. -/
theorem scan_string_unterminated {cs : List Char} (h : '"' ∉ cs) :
    scan_string cs = .error .unterminatedString := by
  induction cs with
  | nil => rfl
  | cons c cs ih =>
    have hc : c ≠ '"' := fun hq => h (hq ▸ List.mem_cons_self c cs)
    have h' : '"' ∉ cs := fun hm => h (List.mem_cons_of_mem c hm)
    simp only [scan_string, if_neg hc, ih h']

/-- A successful `scan_number` always yields a number token. -/
theorem scan_number_ok_shape {first cs t r} (h : scan_number first cs = .ok (t, r)) :
    ∃ n, t = Token.num n := by
  simp only [scan_number] at h
  split at h <;> split at h <;>
    first
      | (simp only [Except.ok.injEq, Prod.mk.injEq] at h; exact ⟨_, h.1.symm⟩)
      | simp_all

/-- A successful `scan_keyword` yields a boolean or null token. -/
theorem scan_keyword_ok_shape {first cs t r} (h : scan_keyword first cs = .ok (t, r)) :
    t = Token.bool true ∨ t = Token.bool false ∨ t = Token.null := by
  simp only [scan_keyword] at h
  split_ifs at h <;> simp_all

theorem eofTail_ne_nil {ts} (h : EofTail ts) : ts ≠ [] := by
  obtain ⟨pre, rfl, -⟩ := h
  simp

theorem eofTail_cons {t ts} (h : EofTail (t :: ts)) (hne : t ≠ Token.eof) : EofTail ts := by
  obtain ⟨pre, hp, hn⟩ := h
  cases pre with
  | nil => simp at hp; exact absurd hp.1 hne
  | cons p pre =>
    simp only [List.cons_append, List.cons.injEq] at hp
    exact ⟨pre, hp.2, fun hm => hn (List.mem_cons_of_mem p hm)⟩

theorem eofTail_cons_of_ne {t ts} (h : EofTail ts) (hne : t ≠ Token.eof) :
    EofTail (t :: ts) := by
  obtain ⟨pre, rfl, hn⟩ := h
  exact ⟨t :: pre, rfl, by simp [hn, Ne.symm hne]⟩

set_option maxHeartbeats 1000000 in
/-- Every successful scan yields a token list ending in exactly one
end-of-input token. -/
theorem scan_tokensF_eofTail :
    ∀ fuel cs ts, scan_tokensF fuel cs = .ok ts → EofTail ts := by
  intro fuel
  induction fuel with
  | zero => intro cs ts h; simp [scan_tokensF] at h
  | succ f ih =>
    intro cs ts h
    cases cs with
    | nil =>
      simp only [scan_tokensF, Except.ok.injEq] at h
      exact ⟨[], h.symm ▸ rfl, by simp⟩
    | cons c rest =>
      simp only [scan_tokensF] at h
      split_ifs at h with hws hlb hrb hlk hrk hcm hcl hq hnum halpha
      · exact ih rest ts h
      · obtain ⟨ts', h', rfl⟩ := except_map_ok.mp h
        exact eofTail_cons_of_ne (ih rest ts' h') (by simp)
      · obtain ⟨ts', h', rfl⟩ := except_map_ok.mp h
        exact eofTail_cons_of_ne (ih rest ts' h') (by simp)
      · obtain ⟨ts', h', rfl⟩ := except_map_ok.mp h
        exact eofTail_cons_of_ne (ih rest ts' h') (by simp)
      · obtain ⟨ts', h', rfl⟩ := except_map_ok.mp h
        exact eofTail_cons_of_ne (ih rest ts' h') (by simp)
      · obtain ⟨ts', h', rfl⟩ := except_map_ok.mp h
        exact eofTail_cons_of_ne (ih rest ts' h') (by simp)
      · obtain ⟨ts', h', rfl⟩ := except_map_ok.mp h
        exact eofTail_cons_of_ne (ih rest ts' h') (by simp)
      · rcases hs : scan_string rest with e | ⟨s, r⟩ <;> rw [hs] at h
        · simp at h
        · obtain ⟨ts', h', rfl⟩ := except_map_ok.mp h
          exact eofTail_cons_of_ne (ih r ts' h') (by simp)
      · rcases hs : scan_number c rest with e | ⟨t, r⟩ <;> rw [hs] at h
        · simp at h
        · obtain ⟨ts', h', rfl⟩ := except_map_ok.mp h
          obtain ⟨n, rfl⟩ := scan_number_ok_shape hs
          exact eofTail_cons_of_ne (ih r ts' h') (by simp)
      · rcases hs : scan_keyword c rest with e | ⟨t, r⟩ <;> rw [hs] at h
        · simp at h
        · obtain ⟨ts', h', rfl⟩ := except_map_ok.mp h
          refine eofTail_cons_of_ne (ih r ts' h') ?_
          rcases scan_keyword_ok_shape hs with rfl | rfl | rfl <;> simp

/-! ## General lemmas about the parser -/

/-- On any token list ending in a single end-of-input token, no parser
routine reads past the end of the list (`indexOOB` is never raised), and a
successful routine leaves a remainder that again ends in that single
end-of-input token (so the EOF token is never consumed by a success). -/
theorem parser_safe : ∀ fuel,
    (∀ ts, EofTail ts → parse_value fuel ts ≠ .error .indexOOB ∧
      ∀ v r, parse_value fuel ts = .ok (v, r) → EofTail r) ∧
    (∀ obj ts, EofTail ts → parse_object_loop fuel obj ts ≠ .error .indexOOB ∧
      ∀ v r, parse_object_loop fuel obj ts = .ok (v, r) → EofTail r) ∧
    (∀ acc ts, EofTail ts → parse_array_loop fuel acc ts ≠ .error .indexOOB ∧
      ∀ v r, parse_array_loop fuel acc ts = .ok (v, r) → EofTail r) := by
  intro fuel
  induction fuel with
  | zero =>
    refine ⟨fun ts _ => ⟨?_, ?_⟩, fun obj ts _ => ⟨?_, ?_⟩, fun acc ts _ => ⟨?_, ?_⟩⟩ <;>
      simp [parse_value, parse_object_loop, parse_array_loop]
  | succ f ih =>
    obtain ⟨ihv, iho, iha⟩ := ih
    refine ⟨fun ts hts => ?_, fun obj ts hts => ?_, fun acc ts hts => ?_⟩
    · -- parse_value
      cases ts with
      | nil => exact (eofTail_ne_nil hts rfl).elim
      | cons t rest =>
        have hrest : t ≠ Token.eof → EofTail rest := eofTail_cons hts
        cases t with
        | str s =>
          refine ⟨by simp [parse_value], fun v r h => ?_⟩
          simp only [parse_value, Except.ok.injEq, Prod.mk.injEq] at h
          exact h.2 ▸ hrest (by simp)
        | num n =>
          refine ⟨by simp [parse_value], fun v r h => ?_⟩
          simp only [parse_value, Except.ok.injEq, Prod.mk.injEq] at h
          exact h.2 ▸ hrest (by simp)
        | bool b =>
          refine ⟨by simp [parse_value], fun v r h => ?_⟩
          simp only [parse_value, Except.ok.injEq, Prod.mk.injEq] at h
          exact h.2 ▸ hrest (by simp)
        | null =>
          refine ⟨by simp [parse_value], fun v r h => ?_⟩
          simp only [parse_value, Except.ok.injEq, Prod.mk.injEq] at h
          exact h.2 ▸ hrest (by simp)
        | lbrace =>
          have h1 := iho [] rest (hrest (by simp))
          refine ⟨?_, fun v r h => ?_⟩
          · simpa only [parse_value] using h1.1
          · exact h1.2 v r (by simpa only [parse_value] using h)
        | lbrack =>
          have h1 := iha [] rest (hrest (by simp))
          refine ⟨?_, fun v r h => ?_⟩
          · simpa only [parse_value] using h1.1
          · exact h1.2 v r (by simpa only [parse_value] using h)
        | rbrace => exact ⟨by simp [parse_value], fun v r h => by simp [parse_value] at h⟩
        | rbrack => exact ⟨by simp [parse_value], fun v r h => by simp [parse_value] at h⟩
        | comma => exact ⟨by simp [parse_value], fun v r h => by simp [parse_value] at h⟩
        | colon => exact ⟨by simp [parse_value], fun v r h => by simp [parse_value] at h⟩
        | eof => exact ⟨by simp [parse_value], fun v r h => by simp [parse_value] at h⟩
    · -- parse_object_loop
      cases ts with
      | nil => exact (eofTail_ne_nil hts rfl).elim
      | cons t ts1 =>
        have hts1 : t ≠ Token.eof → EofTail ts1 := eofTail_cons hts
        cases t with
        | rbrace =>
          refine ⟨by simp [parse_object_loop], fun v r h => ?_⟩
          simp only [parse_object_loop, Except.ok.injEq, Prod.mk.injEq] at h
          exact h.2 ▸ hts1 (by simp)
        | str key =>
          have h1 : EofTail ts1 := hts1 (by simp)
          cases ts1 with
          | nil => exact (eofTail_ne_nil h1 rfl).elim
          | cons t1 ts2 =>
            have hts2 : t1 ≠ Token.eof → EofTail ts2 := eofTail_cons h1
            cases t1 with
            | colon =>
              have h2 : EofTail ts2 := hts2 (by simp)
              have hv := ihv ts2 h2
              rcases hpv : parse_value f ts2 with e | ⟨v0, ts3⟩
              · refine ⟨fun hcontra => ?_, fun v r h => ?_⟩
                · simp only [parse_object_loop, hpv, Except.error.injEq] at hcontra
                  exact hv.1 (hcontra ▸ hpv)
                · simp [parse_object_loop, hpv] at h
              · have h3 : EofTail ts3 := hv.2 v0 ts3 hpv
                cases ts3 with
                | nil => exact (eofTail_ne_nil h3 rfl).elim
                | cons t3 ts4 =>
                  have hts4 : t3 ≠ Token.eof → EofTail ts4 := eofTail_cons h3
                  cases t3 with
                  | comma =>
                    have h4 := iho (dictInsert obj key v0) ts4 (hts4 (by simp))
                    refine ⟨?_, fun v r h => ?_⟩
                    · simpa only [parse_object_loop, hpv] using h4.1
                    · exact h4.2 v r (by simpa only [parse_object_loop, hpv] using h)
                  | rbrace =>
                    refine ⟨by simp [parse_object_loop, hpv], fun v r h => ?_⟩
                    simp only [parse_object_loop, hpv, Except.ok.injEq, Prod.mk.injEq] at h
                    exact h.2 ▸ hts4 (by simp)
                  | str s =>
                    exact ⟨by simp [parse_object_loop, hpv],
                      fun v r h => by simp [parse_object_loop, hpv] at h⟩
                  | num n =>
                    exact ⟨by simp [parse_object_loop, hpv],
                      fun v r h => by simp [parse_object_loop, hpv] at h⟩
                  | bool b =>
                    exact ⟨by simp [parse_object_loop, hpv],
                      fun v r h => by simp [parse_object_loop, hpv] at h⟩
                  | null =>
                    exact ⟨by simp [parse_object_loop, hpv],
                      fun v r h => by simp [parse_object_loop, hpv] at h⟩
                  | lbrace =>
                    exact ⟨by simp [parse_object_loop, hpv],
                      fun v r h => by simp [parse_object_loop, hpv] at h⟩
                  | lbrack =>
                    exact ⟨by simp [parse_object_loop, hpv],
                      fun v r h => by simp [parse_object_loop, hpv] at h⟩
                  | rbrack =>
                    exact ⟨by simp [parse_object_loop, hpv],
                      fun v r h => by simp [parse_object_loop, hpv] at h⟩
                  | colon =>
                    exact ⟨by simp [parse_object_loop, hpv],
                      fun v r h => by simp [parse_object_loop, hpv] at h⟩
                  | eof =>
                    exact ⟨by simp [parse_object_loop, hpv],
                      fun v r h => by simp [parse_object_loop, hpv] at h⟩
            | str s =>
              exact ⟨by simp [parse_object_loop], fun v r h => by simp [parse_object_loop] at h⟩
            | num n =>
              exact ⟨by simp [parse_object_loop], fun v r h => by simp [parse_object_loop] at h⟩
            | bool b =>
              exact ⟨by simp [parse_object_loop], fun v r h => by simp [parse_object_loop] at h⟩
            | null =>
              exact ⟨by simp [parse_object_loop], fun v r h => by simp [parse_object_loop] at h⟩
            | lbrace =>
              exact ⟨by simp [parse_object_loop], fun v r h => by simp [parse_object_loop] at h⟩
            | lbrack =>
              exact ⟨by simp [parse_object_loop], fun v r h => by simp [parse_object_loop] at h⟩
            | rbrace =>
              exact ⟨by simp [parse_object_loop], fun v r h => by simp [parse_object_loop] at h⟩
            | rbrack =>
              exact ⟨by simp [parse_object_loop], fun v r h => by simp [parse_object_loop] at h⟩
            | comma =>
              exact ⟨by simp [parse_object_loop], fun v r h => by simp [parse_object_loop] at h⟩
            | eof =>
              exact ⟨by simp [parse_object_loop], fun v r h => by simp [parse_object_loop] at h⟩
        | num n =>
          exact ⟨by simp [parse_object_loop], fun v r h => by simp [parse_object_loop] at h⟩
        | bool b =>
          exact ⟨by simp [parse_object_loop], fun v r h => by simp [parse_object_loop] at h⟩
        | null =>
          exact ⟨by simp [parse_object_loop], fun v r h => by simp [parse_object_loop] at h⟩
        | lbrace =>
          exact ⟨by simp [parse_object_loop], fun v r h => by simp [parse_object_loop] at h⟩
        | lbrack =>
          exact ⟨by simp [parse_object_loop], fun v r h => by simp [parse_object_loop] at h⟩
        | rbrack =>
          exact ⟨by simp [parse_object_loop], fun v r h => by simp [parse_object_loop] at h⟩
        | comma =>
          exact ⟨by simp [parse_object_loop], fun v r h => by simp [parse_object_loop] at h⟩
        | colon =>
          exact ⟨by simp [parse_object_loop], fun v r h => by simp [parse_object_loop] at h⟩
        | eof =>
          exact ⟨by simp [parse_object_loop], fun v r h => by simp [parse_object_loop] at h⟩
    · -- parse_array_loop
      cases ts with
      | nil => exact (eofTail_ne_nil hts rfl).elim
      | cons t ts1 =>
        have harr : ∀ ts', ts' = t :: ts1 → parse_array_loop (f + 1) acc ts' =
            (match parse_value f ts' with
              | .error e => .error e
              | .ok (v, ts1) =>
                  match ts1 with
                  | [] => .error .indexOOB
                  | Token.comma :: ts2 => parse_array_loop f (acc ++ [v]) ts2
                  | Token.rbrack :: ts2 => .ok (.arr (acc ++ [v]), ts2)
                  | _ :: _ => .error .expectedRBrack) ∨ t = Token.rbrack := by
          intro ts' h
          cases t <;> simp [h, parse_array_loop]
        have hcase := harr (t :: ts1) rfl
        rcases hcase with heq | rfl
        · rw [heq]
          have hv := ihv (t :: ts1) hts
          rcases hpv : parse_value f (t :: ts1) with e | ⟨v0, ts3⟩
          · refine ⟨fun hcontra => ?_, fun v r h => ?_⟩
            · simp only [hpv, Except.error.injEq] at hcontra
              exact hv.1 (hcontra ▸ hpv)
            · simp [hpv] at h
          · have h3 : EofTail ts3 := hv.2 v0 ts3 hpv
            cases ts3 with
            | nil => exact (eofTail_ne_nil h3 rfl).elim
            | cons t3 ts4 =>
              have hts4 : t3 ≠ Token.eof → EofTail ts4 := eofTail_cons h3
              cases t3 with
              | comma =>
                have h4 := iha (acc ++ [v0]) ts4 (hts4 (by simp))
                refine ⟨?_, fun v r h => ?_⟩
                · simpa only [hpv] using h4.1
                · exact h4.2 v r (by simpa only [hpv] using h)
              | rbrack =>
                refine ⟨by simp [hpv], fun v r h => ?_⟩
                simp only [hpv, Except.ok.injEq, Prod.mk.injEq] at h
                exact h.2 ▸ hts4 (by simp)
              | str s => exact ⟨by simp [hpv], fun v r h => by simp [hpv] at h⟩
              | num n => exact ⟨by simp [hpv], fun v r h => by simp [hpv] at h⟩
              | bool b => exact ⟨by simp [hpv], fun v r h => by simp [hpv] at h⟩
              | null => exact ⟨by simp [hpv], fun v r h => by simp [hpv] at h⟩
              | lbrace => exact ⟨by simp [hpv], fun v r h => by simp [hpv] at h⟩
              | lbrack => exact ⟨by simp [hpv], fun v r h => by simp [hpv] at h⟩
              | rbrace => exact ⟨by simp [hpv], fun v r h => by simp [hpv] at h⟩
              | colon => exact ⟨by simp [hpv], fun v r h => by simp [hpv] at h⟩
              | eof => exact ⟨by simp [hpv], fun v r h => by simp [hpv] at h⟩
        · refine ⟨by simp [parse_array_loop], fun v r h => ?_⟩
          simp only [parse_array_loop, Except.ok.injEq, Prod.mk.injEq] at h
          exact h.2 ▸ eofTail_cons hts (by simp)

/-- The parser's cursor only moves forward: the remainder left by any
successful routine is a suffix of the tokens it was given (no
backtracking). -/
theorem parser_suffix : ∀ fuel,
    (∀ ts v r, parse_value fuel ts = .ok (v, r) → r <:+ ts) ∧
    (∀ obj ts v r, parse_object_loop fuel obj ts = .ok (v, r) → r <:+ ts) ∧
    (∀ acc ts v r, parse_array_loop fuel acc ts = .ok (v, r) → r <:+ ts) := by
  intro fuel
  induction fuel with
  | zero =>
    refine ⟨fun ts v r h => ?_, fun obj ts v r h => ?_, fun acc ts v r h => ?_⟩ <;>
      simp [parse_value, parse_object_loop, parse_array_loop] at h
  | succ f ih =>
    obtain ⟨ihv, iho, iha⟩ := ih
    have hsc : ∀ (r l : List Token) (a : Token), r <:+ l → r <:+ a :: l :=
      fun r l a h => h.trans (List.suffix_cons a l)
    refine ⟨fun ts v r h => ?_, fun obj ts v r h => ?_, fun acc ts v r h => ?_⟩
    · cases ts with
      | nil => simp [parse_value] at h
      | cons t rest =>
        cases t with
        | str s =>
          simp only [parse_value, Except.ok.injEq, Prod.mk.injEq] at h
          exact h.2 ▸ List.suffix_cons _ _
        | num n =>
          simp only [parse_value, Except.ok.injEq, Prod.mk.injEq] at h
          exact h.2 ▸ List.suffix_cons _ _
        | bool b =>
          simp only [parse_value, Except.ok.injEq, Prod.mk.injEq] at h
          exact h.2 ▸ List.suffix_cons _ _
        | null =>
          simp only [parse_value, Except.ok.injEq, Prod.mk.injEq] at h
          exact h.2 ▸ List.suffix_cons _ _
        | lbrace =>
          simp only [parse_value] at h
          exact hsc _ _ _ (iho [] rest v r h)
        | lbrack =>
          simp only [parse_value] at h
          exact hsc _ _ _ (iha [] rest v r h)
        | rbrace => simp [parse_value] at h
        | rbrack => simp [parse_value] at h
        | comma => simp [parse_value] at h
        | colon => simp [parse_value] at h
        | eof => simp [parse_value] at h
    · cases ts with
      | nil => simp [parse_object_loop] at h
      | cons t ts1 =>
        cases t with
        | rbrace =>
          simp only [parse_object_loop, Except.ok.injEq, Prod.mk.injEq] at h
          exact h.2 ▸ List.suffix_cons _ _
        | str key =>
          cases ts1 with
          | nil => simp [parse_object_loop] at h
          | cons t1 ts2 =>
            cases t1 with
            | colon =>
              simp only [parse_object_loop] at h
              split at h
              · simp at h
              · rename_i v0 ts3 hpv
                have hs3 : ts3 <:+ ts2 := ihv ts2 v0 ts3 hpv
                split at h
                · simp at h
                · rename_i ts4
                  have h4 : r <:+ ts4 := iho _ ts4 v r h
                  have hs4 : ts4 <:+ ts2 := (List.suffix_cons _ _).trans hs3
                  exact hsc _ _ _ (hsc _ _ _ (h4.trans hs4))
                · rename_i ts4
                  simp only [Except.ok.injEq, Prod.mk.injEq] at h
                  have hs4 : ts4 <:+ ts2 := (List.suffix_cons _ _).trans hs3
                  exact hsc _ _ _ (hsc _ _ _ (h.2 ▸ hs4))
                · simp at h
            | str s => simp [parse_object_loop] at h
            | num n => simp [parse_object_loop] at h
            | bool b => simp [parse_object_loop] at h
            | null => simp [parse_object_loop] at h
            | lbrace => simp [parse_object_loop] at h
            | lbrack => simp [parse_object_loop] at h
            | rbrace => simp [parse_object_loop] at h
            | rbrack => simp [parse_object_loop] at h
            | comma => simp [parse_object_loop] at h
            | eof => simp [parse_object_loop] at h
        | num n => simp [parse_object_loop] at h
        | bool b => simp [parse_object_loop] at h
        | null => simp [parse_object_loop] at h
        | lbrace => simp [parse_object_loop] at h
        | lbrack => simp [parse_object_loop] at h
        | rbrack => simp [parse_object_loop] at h
        | comma => simp [parse_object_loop] at h
        | colon => simp [parse_object_loop] at h
        | eof => simp [parse_object_loop] at h
    · cases ts with
      | nil => simp [parse_array_loop] at h
      | cons t ts1 =>
        have hstep : ∀ ts',
            ((match parse_value f ts' with
              | .error e => .error e
              | .ok (v0, ts3) =>
                  match ts3 with
                  | [] => Except.error PErr.indexOOB
                  | Token.comma :: ts2 => parse_array_loop f (acc ++ [v0]) ts2
                  | Token.rbrack :: ts2 => .ok (JsonValue.arr (acc ++ [v0]), ts2)
                  | _ :: _ => .error .expectedRBrack :
                Except PErr (JsonValue × List Token))) = .ok (v, r) → r <:+ ts' := by
          intro ts' h'
          split at h'
          · simp at h'
          · rename_i v0 ts3 hpv
            have hs3 : ts3 <:+ ts' := ihv ts' v0 ts3 hpv
            split at h'
            · simp at h'
            · rename_i ts4
              have h4 : r <:+ ts4 := iha _ ts4 v r h'
              exact h4.trans ((List.suffix_cons _ _).trans hs3)
            · rename_i ts4
              simp only [Except.ok.injEq, Prod.mk.injEq] at h'
              exact h'.2 ▸ ((List.suffix_cons _ _).trans hs3)
            · simp at h'
        cases t with
        | rbrack =>
          simp only [parse_array_loop, Except.ok.injEq, Prod.mk.injEq] at h
          exact h.2 ▸ List.suffix_cons _ _
        | str s => exact hstep _ (by simpa only [parse_array_loop] using h)
        | num n => exact hstep _ (by simpa only [parse_array_loop] using h)
        | bool b => exact hstep _ (by simpa only [parse_array_loop] using h)
        | null => exact hstep _ (by simpa only [parse_array_loop] using h)
        | lbrace => exact hstep _ (by simpa only [parse_array_loop] using h)
        | lbrack => exact hstep _ (by simpa only [parse_array_loop] using h)
        | rbrace => exact hstep _ (by simpa only [parse_array_loop] using h)
        | comma => exact hstep _ (by simpa only [parse_array_loop] using h)
        | colon => exact hstep _ (by simpa only [parse_array_loop] using h)
        | eof => exact hstep _ (by simpa only [parse_array_loop] using h)

/-! ## Lemmas about the dict model -/

/-- Key order under assignment: overwriting an existing key leaves the key
sequence unchanged (the key keeps its original position), a new key is
appended at the end. -/
theorem dictInsert_keys (kvs : List (List Char × JsonValue)) (k : List Char) (v : JsonValue) :
    (dictInsert kvs k v).map Prod.fst =
      if k ∈ kvs.map Prod.fst then kvs.map Prod.fst else kvs.map Prod.fst ++ [k] := by
  induction kvs with
  | nil => simp [dictInsert]
  | cons kv rest ih =>
    obtain ⟨k', v'⟩ := kv
    by_cases hk : k' = k
    · subst hk
      simp [dictInsert]
    · have hk2 : ¬(k = k') := fun hh => hk hh.symm
      simp only [dictInsert, if_neg hk, List.map_cons, List.mem_cons, hk2, false_or, ih]
      by_cases hmem : k ∈ rest.map Prod.fst <;> simp [hmem]

/-- Last write wins: after assignment the key reads back the new value. -/
theorem dictGet_dictInsert (kvs : List (List Char × JsonValue)) (k : List Char) (v : JsonValue) :
    dictGet (dictInsert kvs k v) k = some v := by
  induction kvs with
  | nil => simp [dictInsert, dictGet]
  | cons kv rest ih =>
    obtain ⟨k', v'⟩ := kv
    by_cases hk : k' = k
    · subst hk
      simp [dictInsert, dictGet]
    · simp [dictInsert, dictGet, hk, ih]

/-! ## Claim theorems -/

/-- C1 counterexample: the claim says `parse_json "[1,2,]"` must fail with
a `ParseError`, but on the code it succeeds and returns the array `[1, 2]`
(and never a `ParseError`): after the comma is consumed, the `while` loop
re-checks its condition, sees the closing bracket, exits, and the final
`expect` consumes the bracket.  The same holds for objects. -/
theorem c1_trailing_comma_counterexample :
    parse_json "[1,2,]" = .ok (.arr [.num (.int 1), .num (.int 2)]) ∧
    (∀ e : PErr, parse_json "[1,2,]" ≠ .error (.parse e)) ∧
    parse_json "\x7b\"a\":1,\x7d" = .ok (.obj [("a".data, .num (.int 1))]) := by
  refine ⟨rfl, fun e h => ?_, rfl⟩
  rw [show parse_json "[1,2,]" = .ok (.arr [.num (.int 1), .num (.int 2)]) from rfl] at h
  exact Except.noConfusion h

/-- C1 (amended): parsing an array or object whose last element or entry is
followed by a comma and then immediately the closing bracket/brace
succeeds: the element loop, re-entered just after consuming that comma,
sees the closing token, exits, and the closing token is consumed, so the
trailing comma is tolerated; in particular `parse_json "[1,2,]"` returns
the array `[1, 2]` and `parse_json "\x7b\"a\":1,\x7d"` returns the object
`{"a": 1}`. -/
theorem c1_trailing_comma_accepted :
    (∀ (f : Nat) (acc : List JsonValue) (rest : List Token),
      parse_array_loop (f + 1) acc (Token.rbrack :: rest) = .ok (.arr acc, rest)) ∧
    (∀ (f : Nat) (obj : List (List Char × JsonValue)) (rest : List Token),
      parse_object_loop (f + 1) obj (Token.rbrace :: rest) = .ok (.obj obj, rest)) ∧
    parse_json "[1,2,]" = .ok (.arr [.num (.int 1), .num (.int 2)]) ∧
    parse_json "\x7b\"a\":1,\x7d" = .ok (.obj [("a".data, .num (.int 1))]) :=
  ⟨fun _ _ _ => rfl, fun _ _ _ => rfl, rfl, rfl⟩

/-- C2 counterexample: the claim says a quote preceded by a backslash does
not terminate the string, so the three-character input `"\"` (open quote,
backslash, quote) would have no closing quote and had to fail as
unterminated; on the code the backslash-preceded quote does terminate the
string and the input parses to the one-character string `\`. -/
theorem c2_escaped_quote_counterexample :
    scan_string ['\\', '"'] = .ok (['\\'], []) ∧
    parse_json "\"\\\"" = .ok (.str ['\\']) ∧
    parse_json "\"\\\"" ≠ .error (.lex .unterminatedString) := by
  refine ⟨rfl, rfl, fun h => ?_⟩
  rw [show parse_json "\"\\\"" = .ok (.str ['\\']) from rfl] at h
  exact Except.noConfusion h

/-- C2 (amended): after an opening double quote the scanner consumes
characters verbatim with no escape-sequence processing, and the string is
terminated by the next double quote regardless of any preceding backslash:
the scan succeeds exactly when the remaining input splits as content
without any quote, then a quote, then the rest, and the token's literal
value is that content — the substring strictly between the opening quote
and the next quote.  A backslash is an ordinary content character and does
not protect a following quote; `parse_json "\"a\\b\""` keeps the backslash
verbatim. -/
theorem c2_scan_string_characterization :
    (∀ cs s r : List Char,
      scan_string cs = .ok (s, r) ↔ (cs = s ++ '"' :: r ∧ '"' ∉ s)) ∧
    parse_json "\"a\\b\"" = .ok (.str ['a', '\\', 'b']) := by
  refine ⟨fun cs s r => ⟨scan_string_ok_decomp, ?_⟩, rfl⟩
  rintro ⟨rfl, hs⟩
  exact scan_string_ok_of_decomp hs

/-- C3: `parse_json` runs the top-level value production exactly once and
returns its result without checking the remaining tokens: whenever the
scanner succeeds and the top-level `parse_value` succeeds with a remainder
other than the lone end-of-input token, `parse_json` still succeeds with
the value parsed from the leading prefix, silently ignoring the trailing
tokens; in particular `parse_json "1 2"` returns the integer `1` and
`parse_json "{} true"` returns the empty object. -/
theorem c3_trailing_tokens_ignored :
    (∀ (s : String) (ts : List Token) (v : JsonValue) (rest : List Token),
      scan_tokens s.data = .ok ts →
      parse_value (ts.length + 1) ts = .ok (v, rest) →
      rest ≠ [Token.eof] →
      parse_json s = .ok v) ∧
    parse_json "1 2" = .ok (.num (.int 1)) ∧
    parse_json "{} true" = .ok (.obj []) := by
  refine ⟨fun s ts v rest hscan hparse _ => ?_, rfl, rfl⟩
  simp [parse_json, hscan, parse_tokens, hparse, Except.map]

/-- C3 witness: `"1 2"` scans to two number tokens before the end-of-input
token, the first `parse_value` stops after the first, and `parse_json`
returns `1`. -/
theorem c3_trailing_tokens_ignored_witness :
    parse_json "1 2" = .ok (.num (.int 1)) :=
  c3_trailing_tokens_ignored.1 "1 2"
    [Token.num (.int 1), Token.num (.int 2), Token.eof]
    (.num (.int 1)) [Token.num (.int 2), Token.eof] rfl rfl (by decide)

/-- C4: on every input the scanner accepts, the produced token sequence
contains exactly one end-of-input token and it is the last element; the
parser run on that sequence never reads a token position past the
end-of-input token (the `IndexError` of an out-of-bounds read is never
raised), and its single cursor only moves forward: the remainder of the
top-level `parse_value` is a suffix of the token sequence (no
backtracking). -/
theorem c4_eof_invariant_and_parser_safety (s : List Char) (ts : List Token)
    (h : scan_tokens s = .ok ts) :
    (ts.count Token.eof = 1 ∧ ts ≠ [] ∧ ts.getLast? = some Token.eof) ∧
    parse_tokens ts ≠ .error .indexOOB ∧
    (∀ v r, parse_value (ts.length + 1) ts = .ok (v, r) → r <:+ ts) := by
  have het : EofTail ts := scan_tokensF_eofTail _ _ _ h
  have hsafe := (parser_safe (ts.length + 1)).1 ts het
  refine ⟨?_, ?_, fun v r hok => (parser_suffix (ts.length + 1)).1 ts v r hok⟩
  · obtain ⟨pre, rfl, hpre⟩ := het
    refine ⟨?_, by simp, by simp⟩
    rw [List.count_append]
    rw [List.count_eq_zero.mpr hpre]
    simp
  · intro hcontra
    unfold parse_tokens at hcontra
    rcases hpv : parse_value (ts.length + 1) ts with e | ⟨v, r⟩ <;> rw [hpv] at hcontra
    · simp only [Except.map, Except.error.injEq] at hcontra
      exact hsafe.1 (hcontra ▸ hpv)
    · simp [Except.map] at hcontra

/-- C4 witness: the scan of `"[]"` yields `[` `]` and one final
end-of-input token, on which the parser raises no out-of-bounds read and
moves only forward. -/
theorem c4_eof_invariant_and_parser_safety_witness :
    (([Token.lbrack, Token.rbrack, Token.eof].count Token.eof = 1 ∧
      [Token.lbrack, Token.rbrack, Token.eof] ≠ [] ∧
      [Token.lbrack, Token.rbrack, Token.eof].getLast? = some Token.eof) ∧
    parse_tokens [Token.lbrack, Token.rbrack, Token.eof] ≠ .error .indexOOB ∧
    (∀ v r, parse_value 4 [Token.lbrack, Token.rbrack, Token.eof] = .ok (v, r) →
      r <:+ [Token.lbrack, Token.rbrack, Token.eof])) :=
  c4_eof_invariant_and_parser_safety "[]".data
    [Token.lbrack, Token.rbrack, Token.eof] rfl

/-- C5: number scanning captures the leading character followed by the
maximal run of digits and dots; on success the remainder is exactly the
input after that run, and the token is a floating-point value obtained by
`float` of the captured text exactly when a dot appeared in it, otherwise
an integer value obtained by `int` of the captured text.  Concretely
`"3.14"` parses to the floating-point value 3.14 (the rational 157/50),
`"42"` to the integer 42, and `"-5"` to the integer -5. -/
theorem c5_number_scanning :
    (∀ (first : Char) (cs : List Char) (t : Token) (rest : List Char),
      scan_number first cs = .ok (t, rest) →
      rest = cs.dropWhile isNumChar ∧
      (if '.' ∈ numText first cs then
        ∃ q, pyFloat (numText first cs) = some q ∧ t = .num (.float q)
      else
        ∃ i, pyInt (numText first cs) = some i ∧ t = .num (.int i))) ∧
    parse_json "3.14" = .ok (.num (.float (157/50))) ∧
    parse_json "42" = .ok (.num (.int 42)) ∧
    parse_json "-5" = .ok (.num (.int (-5))) := by
  refine ⟨fun first cs t rest h => ?_, ?_, rfl, rfl⟩
  · simp only [scan_number] at h
    split at h
    · rename_i hdot
      split at h
      · rename_i q hq
        simp only [Except.ok.injEq, Prod.mk.injEq] at h
        exact ⟨h.2.symm, by rw [if_pos hdot]; exact ⟨q, hq, h.1.symm⟩⟩
      · simp at h
    · rename_i hdot
      split at h
      · rename_i i hi
        simp only [Except.ok.injEq, Prod.mk.injEq] at h
        exact ⟨h.2.symm, by rw [if_neg hdot]; exact ⟨i, hi, h.1.symm⟩⟩
      · simp at h
  · have e1 : parse_json "3.14" = .ok (.num (.float
        ((digitsVal ['3'] : Rat) + (digitsVal ['1', '4'] : Rat) / (10 : Rat) ^ (2 : Nat)))) := rfl
    have d1 : digitsVal ['3'] = 3 := rfl
    have d2 : digitsVal ['1', '4'] = 14 := rfl
    rw [e1, d1, d2]
    norm_num

/-- C5 witness: scanning `42` from its leading digit captures `42`, leaves
nothing, and produces the integer token 42 through `int`. -/
theorem c5_number_scanning_witness :
    ([] : List Char) = "2".data.dropWhile isNumChar ∧
    (if '.' ∈ numText '4' "2".data then
      ∃ q, pyFloat (numText '4' "2".data) = some q ∧
        Token.num (PyNum.int 42) = Token.num (.float q)
    else
      ∃ i, pyInt (numText '4' "2".data) = some i ∧
        Token.num (PyNum.int 42) = Token.num (.int i)) :=
  c5_number_scanning.1 '4' "2".data (Token.num (.int 42)) [] rfl

/-- C6: Python-dict semantics of object construction: assigning a key that
is already present overwrites its value in place (the key keeps its
original position and reads back the new value — last write wins), and a
new key is appended, so keys appear in first-insertion order; in
particular `{"a":1,"a":2}` parses to an object mapping `a` to `2`, and
`{"a":1,"b":2,"a":3}` parses to an object with keys in order `a`, `b` and
`a` mapped to `3`. -/
theorem c6_duplicate_keys_last_write_wins :
    (∀ (kvs : List (List Char × JsonValue)) (k : List Char) (v : JsonValue),
      (dictInsert kvs k v).map Prod.fst =
        (if k ∈ kvs.map Prod.fst then kvs.map Prod.fst else kvs.map Prod.fst ++ [k]) ∧
      dictGet (dictInsert kvs k v) k = some v) ∧
    parse_json "\x7b\"a\":1,\"a\":2\x7d" = .ok (.obj [("a".data, .num (.int 2))]) ∧
    parse_json "\x7b\"a\":1,\"b\":2,\"a\":3\x7d" =
      .ok (.obj [("a".data, .num (.int 3)), ("b".data, .num (.int 2))]) :=
  ⟨fun kvs k v => ⟨dictInsert_keys kvs k v, dictGet_dictInsert kvs k v⟩, rfl, rfl⟩

/-- C7: `parse_value` consumes exactly one token (the remainder in each
equation is the tail): a string/number/boolean/null token returns its
literal value directly, a left brace delegates to the object production, a
left bracket delegates to the array production, and every other token kind
— right brace, right bracket, comma, colon, and end-of-input — fails with
the `Unexpected token` parse error; consequently `parse_json` on the empty
string and on a whitespace-only string fails with that `ParseError`. -/
theorem c7_parse_value_dispatch :
    (∀ (f : Nat) (s : List Char) (r : List Token),
      parse_value (f + 1) (Token.str s :: r) = .ok (.str s, r)) ∧
    (∀ (f : Nat) (n : PyNum) (r : List Token),
      parse_value (f + 1) (Token.num n :: r) = .ok (.num n, r)) ∧
    (∀ (f : Nat) (b : Bool) (r : List Token),
      parse_value (f + 1) (Token.bool b :: r) = .ok (.bool b, r)) ∧
    (∀ (f : Nat) (r : List Token),
      parse_value (f + 1) (Token.null :: r) = .ok (.null, r)) ∧
    (∀ (f : Nat) (r : List Token),
      parse_value (f + 1) (Token.lbrace :: r) = parse_object_loop f [] r) ∧
    (∀ (f : Nat) (r : List Token),
      parse_value (f + 1) (Token.lbrack :: r) = parse_array_loop f [] r) ∧
    (∀ (f : Nat) (r : List Token),
      parse_value (f + 1) (Token.rbrace :: r) = .error .unexpectedToken ∧
      parse_value (f + 1) (Token.rbrack :: r) = .error .unexpectedToken ∧
      parse_value (f + 1) (Token.comma :: r) = .error .unexpectedToken ∧
      parse_value (f + 1) (Token.colon :: r) = .error .unexpectedToken ∧
      parse_value (f + 1) (Token.eof :: r) = .error .unexpectedToken) ∧
    parse_json "" = .error (.parse .unexpectedToken) ∧
    parse_json " \t\n\r" = .error (.parse .unexpectedToken) :=
  ⟨fun _ _ _ => rfl, fun _ _ _ => rfl, fun _ _ _ => rfl, fun _ _ => rfl,
   fun _ _ => rfl, fun _ _ => rfl,
   fun _ _ => ⟨rfl, rfl, rfl, rfl, rfl⟩, rfl, rfl⟩

/-- C8: when the input ends after an opening double quote with no closing
quote anywhere, `scan_string` reaches the end of input and fails with the
`Unterminated string` lexical error; the whole scan fails with that error
and — the result being an error and nothing else — produces no token
sequence; in particular `parse_json "\"abc"` fails with that `LexError`. -/
theorem c8_unterminated_string :
    (∀ cs : List Char, '"' ∉ cs → scan_string cs = .error .unterminatedString) ∧
    scan_tokens "\"abc".data = .error .unterminatedString ∧
    parse_json "\"abc" = .error (.lex .unterminatedString) :=
  ⟨fun _ h => scan_string_unterminated h, rfl, rfl⟩

/-- C8 witness: the input `"abc` has no closing quote after the opening
one, and scanning it reports an unterminated string. -/
theorem c8_unterminated_string_witness :
    scan_string "abc".data = .error .unterminatedString :=
  c8_unterminated_string.1 "abc".data (by decide)

/-- C9: keyword scanning captures the leading alphabetic character
followed by the maximal run of alphabetic characters (the remainder on
success is the input after that run); the captured word is recognized as
exactly one of `true`, `false`, `null` producing the corresponding
boolean/null token, and every other captured word — such as `tru`, `True`
or `nullx` — fails the scan with the `Unexpected keyword` lexical error. -/
theorem c9_keyword_scanning :
    (∀ (first : Char) (cs : List Char) (t : Token) (rest : List Char),
      scan_keyword first cs = .ok (t, rest) →
      rest = cs.dropWhile (fun c => c.isAlpha)) ∧
    (∀ (first : Char) (cs : List Char),
      first :: cs.takeWhile (fun c => c.isAlpha) ≠ "true".data →
      first :: cs.takeWhile (fun c => c.isAlpha) ≠ "false".data →
      first :: cs.takeWhile (fun c => c.isAlpha) ≠ "null".data →
      scan_keyword first cs =
        .error (.unexpectedKeyword (first :: cs.takeWhile (fun c => c.isAlpha)))) ∧
    scan_tokens "true".data = .ok [Token.bool true, Token.eof] ∧
    scan_tokens "false".data = .ok [Token.bool false, Token.eof] ∧
    scan_tokens "null".data = .ok [Token.null, Token.eof] ∧
    parse_json "true" = .ok (.bool true) ∧
    parse_json "false" = .ok (.bool false) ∧
    parse_json "null" = .ok JsonValue.null ∧
    parse_json "tru" = .error (.lex (.unexpectedKeyword "tru".data)) ∧
    parse_json "True" = .error (.lex (.unexpectedKeyword "True".data)) ∧
    parse_json "nullx" = .error (.lex (.unexpectedKeyword "nullx".data)) := by
  refine ⟨fun first cs t rest h => ?_, fun first cs h1 h2 h3 => ?_,
    rfl, rfl, rfl, rfl, rfl, rfl, rfl, rfl, rfl⟩
  · simp only [scan_keyword] at h
    split_ifs at h <;>
      (simp only [Except.ok.injEq, Prod.mk.injEq] at h; exact h.2.symm)
  · simp only [scan_keyword, if_neg h1, if_neg h2, if_neg h3]

/-- C9 witness: scanning the keyword starting at `t` over `rue` stops at
the end of the alphabetic run, and the non-keyword word `zq` fails with
the `Unexpected keyword` error. -/
theorem c9_keyword_scanning_witness :
    (([] : List Char) = "rue".data.dropWhile (fun c => c.isAlpha)) ∧
    scan_keyword 'z' "q".data = .error (.unexpectedKeyword "zq".data) :=
  ⟨c9_keyword_scanning.1 't' "rue".data (Token.bool true) [] rfl,
   c9_keyword_scanning.2.1 'z' "q".data (by decide) (by decide) (by decide)⟩

/-- C10: number scanning performs no validation of its own: it captures
the text and hands it to the numeric conversion, and when that conversion
fails — `float` on a text with a second decimal point, `int` on a bare
minus sign — the scan raises the conversion's error instead of returning a
number token; in particular `parse_json "-"` and `parse_json "1.2.3"` fail
with that lexical error. -/
theorem c10_number_validation_delegated :
    (∀ (first : Char) (cs : List Char),
      '.' ∈ numText first cs → pyFloat (numText first cs) = none →
      scan_number first cs = .error (.badNumber (numText first cs))) ∧
    (∀ (first : Char) (cs : List Char),
      '.' ∉ numText first cs → pyInt (numText first cs) = none →
      scan_number first cs = .error (.badNumber (numText first cs))) ∧
    pyInt "-".data = none ∧
    pyFloat "1.2.3".data = none ∧
    parse_json "-" = .error (.lex (.badNumber "-".data)) ∧
    parse_json "1.2.3" = .error (.lex (.badNumber "1.2.3".data)) := by
  refine ⟨fun first cs hdot hnone => ?_, fun first cs hdot hnone => ?_, rfl, rfl, rfl, rfl⟩
  · simp only [scan_number, if_pos hdot, hnone]
  · simp only [scan_number, if_neg hdot, hnone]

/-- C10 witness: the captured texts `1.2.3` and `-` both fail their
numeric conversions, and scanning them raises the error. -/
theorem c10_number_validation_delegated_witness :
    scan_number '1' ".2.3".data = .error (.badNumber "1.2.3".data) ∧
    scan_number '-' [] = .error (.badNumber ['-']) :=
  ⟨c10_number_validation_delegated.1 '1' ".2.3".data (by decide) rfl,
   c10_number_validation_delegated.2.1 '-' [] (by decide) rfl⟩
